import Mathlib

/-!
Shallow embedding of the EEG BLE monitor component (`src/App.tsx`) and proofs
about its telemetry pipeline: the frame decoder inside the monitor callback,
the bounded per-channel histories, the scan/connect/disconnect/pause/clear
handlers, and the derived throughput value.

Modelling conventions:
* Bytes are `Nat` (values delivered are `0..255`; no claim depends on the bound).
* A channel reading is kept as its raw 32-bit pattern (`Nat`): `getFloat32`
  returns the floating-point number determined by those bits, and `f32Val`
  gives the exact rational value of a finite bit pattern.
* Wall-clock times are `ℚ` (milliseconds, as `Date.now()`).
* The monitor callback mutates state only after all `DataView` reads succeed;
  a payload shorter than 18 bytes makes a read throw out of range before any
  `set...` call runs, so its state effect is the identity, which is how
  `onNotify` renders it.  An absent (or empty, hence falsy) payload is caught
  by the `if (!char?.value) return` guard, also the identity.
* The `if (!paused)` test inside the monitor callback reads the `paused`
  const of the render that invoked `connectAndMonitor` — a stale closure.
  The subscription is registered once, so later `setPaused` calls never
  change what the callback sees.  The captured value is the `monPaused`
  field, written by `connectAndMonitor` from the pause state at connect
  time; the live `paused` field is what the toggle button flips.
-/

namespace EEGApp

/-- Capacity of each channel history (`MAX_HISTORY` in App.tsx). -/
def MAX_HISTORY : Nat := 100

/-- Little-endian unsigned 16-bit read (`dv.getUint16(0, true)`). -/
def leU16 (b0 b1 : Nat) : Nat := b0 + 256 * b1

/-- Little-endian combine of four bytes into a 32-bit pattern. -/
def leU32 (b0 b1 b2 b3 : Nat) : Nat :=
  b0 + 256 * b1 + 65536 * b2 + 16777216 * b3

/-- Raw bit pattern of channel `i`, read little-endian from bytes
`2+4*i .. 6+4*i` (`dv.getFloat32(2 + i * 4, true)` in App.tsx). -/
def chanBits (raw : List Nat) (i : Nat) : Nat :=
  leU32 (raw.getD (2 + 4 * i) 0) (raw.getD (3 + 4 * i) 0)
    (raw.getD (4 + 4 * i) 0) (raw.getD (5 + 4 * i) 0)

/-- The four channel reads of the monitor callback
(`for (let i = 0; i < 4; i++) chans.push(dv.getFloat32(2 + i * 4, true))`). -/
def decodeChans (raw : List Nat) : List Nat :=
  (List.range 4).map (chanBits raw)

/-- Exact rational value of a finite IEEE-754 binary32 bit pattern;
`none` for infinities and NaNs (exponent field all ones). -/
def f32Val (bits : Nat) : Option ℚ :=
  let s : Nat := bits / 2 ^ 31 % 2
  let e : Nat := bits / 2 ^ 23 % 2 ^ 8
  let m : Nat := bits % 2 ^ 23
  if e = 255 then none
  else
    let mag : ℚ :=
      if e = 0 then (m : ℚ) / 2 ^ 149
      else ((2 ^ 23 + m : Nat) : ℚ) * 2 ^ e / 2 ^ 150
    some (if s = 1 then -mag else mag)

/-- One append into a bounded history: `const next = [...h, v];
if (next.length > MAX_HISTORY) next.shift(); return next;`. -/
def pushHist (h : List α) (v : α) : List α :=
  let next := h ++ [v]
  if MAX_HISTORY < next.length then next.tail else next

/-- The history update of the callback:
`hs.map((h, i) => pushHist(h, chans[i]))`. -/
def pushAll (hs : List (List Nat)) (chans : List Nat) : List (List Nat) :=
  hs.mapIdx fun i h => pushHist h (chans.getD i 0)

/-- The component state: the `useState`/`useRef` cells of `App`.
`connected` abstracts the `Device | null` cell to whether a device is held;
`scanTimer` models the pending `setTimeout` of `startScan` as remaining
time-units; `monPaused` is the `paused` value captured by the monitor
callback closure at subscription time (stale closure: the callback keeps
seeing it no matter how often the live `paused` cell is toggled later). -/
structure AppState where
  scanning : Bool
  devices : List (String × String)
  connected : Bool
  sequence : Nat
  channels : List Nat
  histories : List (List Nat)
  count : Nat
  paused : Bool
  monPaused : Bool
  startTime : ℚ
  scanTimer : Option Nat
deriving DecidableEq, Repr

/-- Initial state of the component: all `useState` initial values,
`startTimeRef` initialised to the mount time `t0`. -/
def initState (t0 : ℚ) : AppState :=
  { scanning := false, devices := [], connected := false, sequence := 0
    channels := [0, 0, 0, 0], histories := [[], [], [], []], count := 0
    paused := false, monPaused := false, startTime := t0, scanTimer := none }

/-- `startScan`: clears the device list, raises the scanning flag and arms
the 5 time-unit stop timer (`setTimeout(..., 5000)`). -/
def startScan (s : AppState) : AppState :=
  { s with devices := [], scanning := true, scanTimer := some 5 }

/-- Scan callback, device branch: a discovered device is appended when it has
a name and its id is not already listed. -/
def onDeviceFound (id : String) (name : Option String) (s : AppState) : AppState :=
  match name with
  | none => s
  | some nm =>
      { s with devices :=
          if s.devices.any fun d => d.1 = id then s.devices
          else s.devices ++ [(id, nm)] }

/-- Scan callback, error branch: `setScanning(false); return;`. -/
def onScanError (s : AppState) : AppState :=
  { s with scanning := false }

/-- One time-unit elapsing.  The armed `startScan` timer counts down; when it
fires it stops the scan and lowers the scanning flag. -/
def tick (s : AppState) : AppState :=
  match s.scanTimer with
  | none => s
  | some n =>
      if n ≤ 1 then { s with scanning := false, scanTimer := none }
      else { s with scanTimer := some (n - 1) }

/-- `connectAndMonitor`, success path: stores the device, restamps
`startTimeRef`, zeroes the sample count, empties the histories, and
registers the monitor callback, whose closure captures the current `paused`
value (`monPaused := s.paused`).  `sequence`, `channels` and `paused` are
left untouched by this handler. -/
def connectAndMonitor (now : ℚ) (s : AppState) : AppState :=
  { s with connected := true, startTime := now, count := 0
           histories := [[], [], [], []], monPaused := s.paused }

/-- The monitor callback for one notification.  `none` is an absent/empty
payload (the `if (!char?.value) return` guard).  A payload of fewer than 18
bytes makes a `DataView` read throw before any state update, so the state is
unchanged; from 18 bytes on, all reads land in the first 18 bytes and the
updates run: sequence and channels always, the count unconditionally, and
the histories gated by `monPaused` — the `paused` value the callback closure
captured at subscription, not the live one (`if (!paused)` in the source is
a stale closure over the connect-time render). -/
def onNotify (payload : Option (List Nat)) (s : AppState) : AppState :=
  match payload with
  | none => s
  | some raw =>
      if 18 ≤ raw.length then
        let chans := decodeChans raw
        { s with sequence := leU16 (raw.getD 0 0) (raw.getD 1 0)
                 channels := chans
                 histories := if s.monPaused then s.histories else pushAll s.histories chans
                 count := s.count + 1 }
      else s

/-- The pause button: `setPaused(!paused)`.  This flips only the live state
cell; the already-registered monitor callback still sees the value it
captured (`monPaused`). -/
def togglePause (s : AppState) : AppState :=
  { s with paused := !s.paused }

/-- `clearData`: restamps `startTimeRef`, zeroes the count, empties the
histories. -/
def clearData (now : ℚ) (s : AppState) : AppState :=
  { s with startTime := now, count := 0, histories := [[], [], [], []] }

/-- `disconnectDevice`: only acts when a device is held; drops the device,
empties the histories, zeroes sequence and count.  (`channels` and
`startTimeRef` are left untouched.) -/
def disconnectDevice (s : AppState) : AppState :=
  if s.connected then
    { s with connected := false, histories := [[], [], [], []]
             sequence := 0, count := 0 }
  else s

/-- Derived throughput shown in the header:
`elapsedSec = (Date.now() - startTimeRef.current) / 1000;
speed = elapsedSec > 0 ? count / elapsedSec : 0`. -/
def speedOf (s : AppState) (now : ℚ) : ℚ :=
  let elapsedSec := (now - s.startTime) / 1000
  if 0 < elapsedSec then s.count / elapsedSec else 0

/-- External events driving the component. -/
inductive Ev where
  | startScan
  | deviceFound (id : String) (name : Option String)
  | scanError
  | tick
  | connect (now : ℚ)
  | notify (payload : Option (List Nat))
  | togglePause
  | clearData (now : ℚ)
  | disconnect
deriving DecidableEq, Repr

/-- Event dispatch. -/
def step (s : AppState) : Ev → AppState
  | .startScan => startScan s
  | .deviceFound id name => onDeviceFound id name s
  | .scanError => onScanError s
  | .tick => tick s
  | .connect now => connectAndMonitor now s
  | .notify p => onNotify p s
  | .togglePause => togglePause s
  | .clearData now => clearData now s
  | .disconnect => disconnectDevice s

/-- A burst of notifications, applied in delivery order. -/
def applyFrames (ps : List (List Nat)) (s : AppState) : AppState :=
  ps.foldl (fun t raw => onNotify (some raw) t) s

/-- The C4 test payload `[01,00, 00,00,80,3F, 00,00,00,40, 00,00,40,40,
00,00,80,40]`. -/
def P4 : List Nat :=
  [1, 0, 0, 0, 128, 63, 0, 0, 0, 64, 0, 0, 64, 64, 0, 0, 128, 64]

/-! Section: history-buffer lemmas -/

/-- A full history evicts its oldest element on append. -/
lemma pushHist_full {α : Type} (h : List α) (v : α) (hf : h.length = MAX_HISTORY) :
    pushHist h v = h.tail ++ [v] := by
  have hne : h ≠ [] := by
    intro hnil
    rw [hnil] at hf
    simp [MAX_HISTORY] at hf
  have hc : MAX_HISTORY < (h ++ [v]).length := by
    rw [List.length_append, hf]
    simp
  simp only [pushHist]
  rw [if_pos hc, List.tail_append_singleton_of_ne_nil hne]

/-- A history below capacity grows by plain append. -/
lemma pushHist_not_full {α : Type} (h : List α) (v : α) (hf : h.length < MAX_HISTORY) :
    pushHist h v = h ++ [v] := by
  have hc : ¬ MAX_HISTORY < (h ++ [v]).length := by
    rw [List.length_append]
    simp only [List.length_singleton]
    omega
  simp only [pushHist]
  rw [if_neg hc]

/-- Length evolution of one push. -/
lemma length_pushHist {α : Type} (h : List α) (v : α) :
    (pushHist h v).length = if h.length < MAX_HISTORY then h.length + 1 else h.length := by
  by_cases hf : h.length < MAX_HISTORY
  · rw [pushHist_not_full h v hf, if_pos hf, List.length_append, List.length_singleton]
  · have hc : MAX_HISTORY < (h ++ [v]).length := by
      rw [List.length_append]
      simp only [List.length_singleton]
      omega
    simp only [pushHist]
    rw [if_pos hc, if_neg hf, List.length_tail, List.length_append]
    simp only [List.length_singleton]
    omega

/-- Pushing a whole list into an empty history keeps exactly the last
`MAX_HISTORY` values, oldest first. -/
lemma foldl_pushHist_eq_drop (vs : List Nat) :
    vs.foldl pushHist [] = vs.drop (vs.length - MAX_HISTORY) := by
  induction vs using List.reverseRecOn with
  | nil => simp
  | append_singleton vs v ih =>
      rw [List.foldl_append, List.foldl_cons, List.foldl_nil, ih]
      simp only [List.length_append, List.length_singleton]
      by_cases h : vs.length < MAX_HISTORY
      · have h0 : vs.length - MAX_HISTORY = 0 := by omega
        have h1 : vs.length + 1 - MAX_HISTORY = 0 := by omega
        rw [h0, h1, List.drop_zero, List.drop_zero]
        exact pushHist_not_full vs v h
      · have hM : MAX_HISTORY = 100 := rfl
        have hlen : (vs.drop (vs.length - MAX_HISTORY)).length = MAX_HISTORY := by
          rw [List.length_drop]
          omega
        rw [pushHist_full _ v hlen, List.tail_drop]
        have h1 : vs.length + 1 - MAX_HISTORY = (vs.length - MAX_HISTORY) + 1 := by omega
        have hle : (vs.length - MAX_HISTORY) + 1 ≤ vs.length := by omega
        rw [h1, List.drop_append_of_le_length hle]

/-- C3: for any sequence of `N` pushed values into a channel history of
capacity `MAX_HISTORY = 100`, the stored history has length `min N 100` and
equals the last `min N 100` pushed values in push order (expressed as
dropping all but the last `MAX_HISTORY`); when full, the oldest element is
evicted on each append. -/
theorem C3_history_window (vs : List Nat) (h : List Nat) (v : Nat) :
    (vs.foldl pushHist []).length = min vs.length MAX_HISTORY ∧
    vs.foldl pushHist [] = vs.drop (vs.length - MAX_HISTORY) ∧
    (h.length = MAX_HISTORY → pushHist h v = h.tail ++ [v]) := by
  refine ⟨?_, foldl_pushHist_eq_drop vs, fun hf => pushHist_full h v hf⟩
  rw [foldl_pushHist_eq_drop vs, List.length_drop]
  omega

/-- Witness for C3 at a concrete 105-element push sequence and a concrete
full history. -/
theorem C3_history_window_witness :
    ((List.range 105).foldl pushHist []).length = min (List.range 105).length MAX_HISTORY ∧
    (List.range 105).foldl pushHist [] =
      (List.range 105).drop ((List.range 105).length - MAX_HISTORY) ∧
    (List.replicate 100 7).length = MAX_HISTORY ∧
    pushHist (List.replicate 100 7) 9 = (List.replicate 100 7).tail ++ [9] := by
  obtain ⟨h1, h2, h3⟩ := C3_history_window (List.range 105) (List.replicate 100 7) 9
  exact ⟨h1, h2, by decide, h3 (by decide)⟩

/-! Section: decoder facts -/

/-- On a payload of at least 18 bytes the callback stores the decoded fields. -/
lemma onNotify_decodes (s : AppState) (raw : List Nat) (hlen : 18 ≤ raw.length) :
    onNotify (some raw) s =
      { s with sequence := leU16 (raw.getD 0 0) (raw.getD 1 0)
               channels := decodeChans raw
               histories :=
                 if s.monPaused then s.histories else pushAll s.histories (decodeChans raw)
               count := s.count + 1 } := by
  simp only [onNotify, if_pos hlen]

/-- On an absent payload or a payload shorter than 18 bytes the state is
unchanged. -/
lemma onNotify_short (s : AppState) (p : Option (List Nat))
    (hp : p = none ∨ ∃ raw, p = some raw ∧ raw.length < 18) :
    onNotify p s = s := by
  rcases hp with h | ⟨raw, hr, hlen⟩
  · rw [h]
    rfl
  · rw [hr]
    simp only [onNotify]
    rw [if_neg (by omega)]

/-- C4: decoding the exact 18-byte payload
`[01,00, 00,00,80,3F, 00,00,00,40, 00,00,40,40, 00,00,80,40]` yields
sequence 1 (little-endian u16 from bytes 0..2) and channel values
1.0, 2.0, 3.0, 4.0 (little-endian IEEE-754 binary32 from bytes
`2+4i..6+4i`), in every state. -/
theorem C4_reference_frame (s : AppState) :
    (onNotify (some P4) s).sequence = 1 ∧
    ((onNotify (some P4) s).channels).map f32Val = [some 1, some 2, some 3, some 4] := by
  rw [onNotify_decodes s P4 (by decide)]
  refine ⟨?_, ?_⟩
  · show leU16 (P4.getD 0 0) (P4.getD 1 0) = 1
    decide
  · show (decodeChans P4).map f32Val = [some 1, some 2, some 3, some 4]
    rw [show decodeChans P4 = [1065353216, 1073741824, 1077936128, 1082130432] from by decide]
    norm_num [f32Val]

/-- Reading an index below 18 is unaffected by truncating to the first 18 bytes. -/
lemma getD_take_18 (raw : List Nat) (i : Nat) (h : i < 18) :
    (raw.take 18).getD i 0 = raw.getD i 0 := by
  rw [List.getD_eq_getElem?_getD, List.getD_eq_getElem?_getD, List.getElem?_take_of_lt h]

/-- Channel bits only depend on the first 18 bytes. -/
lemma chanBits_take_18 (raw : List Nat) (i : Nat) (hi : i < 4) :
    chanBits (raw.take 18) i = chanBits raw i := by
  unfold chanBits
  rw [getD_take_18 raw (2 + 4 * i) (by omega), getD_take_18 raw (3 + 4 * i) (by omega),
      getD_take_18 raw (4 + 4 * i) (by omega), getD_take_18 raw (5 + 4 * i) (by omega)]

/-- The whole decoded channel list only depends on the first 18 bytes. -/
lemma decodeChans_take_18 (raw : List Nat) :
    decodeChans (raw.take 18) = decodeChans raw := by
  unfold decodeChans
  apply List.map_congr_left
  intro i hi
  exact chanBits_take_18 raw i (List.mem_range.mp hi)

/-- C1 counterexample: a 22-byte payload (length ≠ 18) is not rejected; it is
decoded from its first 18 bytes and mutates state (sequence and count change
from the initial state). -/
theorem C1_counterexample :
    (P4 ++ [0, 0, 0, 0]).length ≠ 18 ∧
    (onNotify (some (P4 ++ [0, 0, 0, 0])) (initState 0)).sequence = 1 ∧
    (onNotify (some (P4 ++ [0, 0, 0, 0])) (initState 0)).count = 1 ∧
    (initState 0).sequence = 0 ∧ (initState 0).count = 0 := by
  decide

/-- C1 (amended): an absent payload, or one of fewer than 18 bytes, leaves the
state unchanged (the short reads throw before any update; there is no
`WrongLength` error value); a payload of 18 bytes or more is decoded from its
first 18 bytes, so over-length payloads are accepted rather than rejected. -/
theorem C1_short_frames (s : AppState) (raw : List Nat) :
    onNotify none s = s ∧
    (raw.length < 18 → onNotify (some raw) s = s) ∧
    (18 ≤ raw.length → onNotify (some raw) s = onNotify (some (raw.take 18)) s) := by
  refine ⟨rfl, fun hlen => onNotify_short s (some raw) (Or.inr ⟨raw, rfl, hlen⟩), fun hlen => ?_⟩
  have htk : (18 : Nat) ≤ (raw.take 18).length := by
    rw [List.length_take]
    omega
  rw [onNotify_decodes s raw hlen, onNotify_decodes s (raw.take 18) htk,
      decodeChans_take_18, getD_take_18 raw 0 (by omega), getD_take_18 raw 1 (by omega)]

/-- Witness for C1 at concrete payloads: absent, 3-byte, and 22-byte. -/
theorem C1_short_frames_witness :
    onNotify none (initState 0) = initState 0 ∧
    ([1, 2, 3] : List Nat).length < 18 ∧
    onNotify (some [1, 2, 3]) (initState 0) = initState 0 ∧
    18 ≤ (P4 ++ [0, 0, 0, 0]).length ∧
    onNotify (some (P4 ++ [0, 0, 0, 0])) (initState 0) =
      onNotify (some ((P4 ++ [0, 0, 0, 0]).take 18)) (initState 0) := by
  obtain ⟨h1, h2, _⟩ := C1_short_frames (initState 0) [1, 2, 3]
  obtain ⟨_, _, h3⟩ := C1_short_frames (initState 0) (P4 ++ [0, 0, 0, 0])
  exact ⟨h1, by decide, h2 (by decide), by decide, h3 (by decide)⟩

/-- C5, evaluated at the failing input.  The counting half of the claim is
true of the code: the count increments once per decoded frame, paused or
not.  But "pause withholds only the history update" is violated: after
connecting (the callback closure captures `paused = false`) and then
toggling pause, a delivered frame is still appended to all four histories,
because `if (!paused)` in the callback reads the stale captured value, never
the live one.  The code contradicts the evident intent of its own pause
guard, so this is a code bug, not a spec error. -/
theorem C5_stale_pause_bug :
    (togglePause (connectAndMonitor 0 (initState 0))).paused = true ∧
    (togglePause (connectAndMonitor 0 (initState 0))).histories.map List.length
      = [0, 0, 0, 0] ∧
    (onNotify (some P4) (togglePause (connectAndMonitor 0 (initState 0)))).count
      = (togglePause (connectAndMonitor 0 (initState 0))).count + 1 ∧
    (onNotify (some P4) (togglePause (connectAndMonitor 0 (initState 0)))).histories.map
        List.length = [1, 1, 1, 1] := by
  decide

/-- C6 counterexample: entering Active (the second connect below) does not
zero the latest channel values: they still hold the readings of the previous
session. -/
theorem C6_counterexample :
    (connectAndMonitor 1 (disconnectDevice (onNotify (some P4)
        (connectAndMonitor 0 (initState 0))))).connected = true ∧
    (connectAndMonitor 1 (disconnectDevice (onNotify (some P4)
        (connectAndMonitor 0 (initState 0))))).channels ≠ [0, 0, 0, 0] := by
  decide

/-- C6 (amended): on every transition into Active the histories are cleared
and the metrics are reset (`count = 0`, `startTime = now`), but the latest
sequence and latest channel values are left unchanged by the connect handler
(sequence is zeroed only by a preceding disconnect; channel values persist). -/
theorem C6_connect_resets (s : AppState) (now : ℚ) :
    (connectAndMonitor now s).connected = true ∧
    (connectAndMonitor now s).histories = [[], [], [], []] ∧
    (connectAndMonitor now s).count = 0 ∧
    (connectAndMonitor now s).startTime = now ∧
    (connectAndMonitor now s).sequence = s.sequence ∧
    (connectAndMonitor now s).channels = s.channels :=
  ⟨rfl, rfl, rfl, rfl, rfl, rfl⟩

/-- C7 counterexample: disconnecting while Active does not clear the latest
channel values (part of the aggregator state), though it does transition to
Disconnected. -/
theorem C7_counterexample :
    (disconnectDevice (onNotify (some P4) (connectAndMonitor 0 (initState 0)))).connected
      = false ∧
    (disconnectDevice (onNotify (some P4) (connectAndMonitor 0 (initState 0)))).channels
      ≠ [0, 0, 0, 0] := by
  decide

/-- C7 (amended): disconnecting while Active clears all four histories,
resets the latest sequence to 0 and the sample count to 0, and transitions to
Disconnected, but leaves the latest channel values and the session start time
unchanged. -/
theorem C7_disconnect (s : AppState) (hc : s.connected = true) :
    (disconnectDevice s).connected = false ∧
    (disconnectDevice s).histories = [[], [], [], []] ∧
    (disconnectDevice s).sequence = 0 ∧
    (disconnectDevice s).count = 0 ∧
    (disconnectDevice s).channels = s.channels ∧
    (disconnectDevice s).startTime = s.startTime := by
  unfold disconnectDevice
  rw [if_pos hc]
  exact ⟨rfl, rfl, rfl, rfl, rfl, rfl⟩

/-- Witness for C7 in a freshly connected state. -/
theorem C7_disconnect_witness :
    (disconnectDevice (connectAndMonitor 0 (initState 0))).connected = false ∧
    (disconnectDevice (connectAndMonitor 0 (initState 0))).sequence = 0 := by
  obtain ⟨h1, _, h3, _, _, _⟩ := C7_disconnect (connectAndMonitor 0 (initState 0)) (by decide)
  exact ⟨h1, h3⟩

/-- C8: the displayed throughput is `count` divided by the elapsed seconds
`(now - startTime) / 1000`, is 0 when the elapsed time is zero, and is 0 at
the very instant of a clear (which restamps the start time to `now`). -/
theorem C8_throughput (s : AppState) (now : ℚ) :
    (now - s.startTime = 0 → speedOf s now = 0) ∧
    (0 < now - s.startTime → speedOf s now = s.count / ((now - s.startTime) / 1000)) ∧
    speedOf (clearData now s) now = 0 := by
  refine ⟨fun h => ?_, fun h => ?_, ?_⟩
  · simp [speedOf, h]
  · have h2 : 0 < (now - s.startTime) / 1000 := div_pos h (by norm_num)
    simp only [speedOf, if_pos h2]
  · simp [speedOf, clearData]

/-- Witness for C8 at concrete counts and times. -/
theorem C8_throughput_witness :
    speedOf { initState 0 with count := 6 } 2000 = 3 ∧
    speedOf (initState 0) 0 = 0 ∧
    speedOf (clearData 5 (initState 0)) 5 = 0 := by
  obtain ⟨_, h2, _⟩ := C8_throughput { initState 0 with count := 6 } 2000
  obtain ⟨g1, _, _⟩ := C8_throughput (initState 0) 0
  obtain ⟨_, _, k3⟩ := C8_throughput (initState 0) 5
  refine ⟨?_, g1 (by norm_num [initState]), k3⟩
  have := h2 (by norm_num [initState])
  rw [this]
  norm_num [initState]

/-! Section: scan timeout -/

/-- Ticks are inert once no timer is armed. -/
lemma foldl_tick_none (n : Nat) (s : AppState) (h : s.scanTimer = none) :
    (List.replicate n Ev.tick).foldl step s = s := by
  induction n generalizing s with
  | zero => rfl
  | succ n ih =>
      rw [List.replicate_succ, List.foldl_cons]
      have hs : step s Ev.tick = s := by
        show tick s = s
        unfold tick
        rw [h]
      rw [hs]
      exact ih s h

/-- An armed timer fires within its remaining ticks, stopping the scan. -/
lemma foldl_tick_fires (n : Nat) : ∀ (k : Nat) (s : AppState), s.scanTimer = some k →
    1 ≤ k → k ≤ n →
    (List.replicate n Ev.tick).foldl step s
      = { s with scanning := false, scanTimer := none } := by
  induction n with
  | zero => intro k s _ _ hkn; omega
  | succ n ih =>
      intro k s h hk1 hkn
      rw [List.replicate_succ, List.foldl_cons]
      show (List.replicate n Ev.tick).foldl step (tick s) = _
      by_cases hk : k ≤ 1
      · have ht : tick s = { s with scanning := false, scanTimer := none } := by
          unfold tick
          rw [h]
          show (if k ≤ 1 then { s with scanning := false, scanTimer := none }
              else { s with scanTimer := some (k - 1) }) = _
          rw [if_pos hk]
        rw [ht]
        exact foldl_tick_none n _ rfl
      · have ht : tick s = { s with scanTimer := some (k - 1) } := by
          unfold tick
          rw [h]
          show (if k ≤ 1 then { s with scanning := false, scanTimer := none }
              else { s with scanTimer := some (k - 1) }) = _
          rw [if_neg hk]
        rw [ht]
        exact ih (k - 1) _ rfl (by omega) (by omega)

/-- C9: after a scan starts, five time-units with no device-found events (no
events at all) automatically stop the scan: the scanning flag is lowered, the
timer is disarmed and the device list is empty, i.e. the session is back to
Idle. -/
theorem C9_scan_timeout (s : AppState) (n : Nat) (hn : 5 ≤ n) :
    ((List.replicate n Ev.tick).foldl step (step s Ev.startScan)).scanning = false ∧
    ((List.replicate n Ev.tick).foldl step (step s Ev.startScan)).devices = [] ∧
    ((List.replicate n Ev.tick).foldl step (step s Ev.startScan)).scanTimer = none := by
  have h := foldl_tick_fires n 5 (step s Ev.startScan) rfl (by omega) hn
  rw [h]
  exact ⟨rfl, rfl, rfl⟩

/-- Witness for C9: exactly five ticks from the initial state. -/
theorem C9_scan_timeout_witness :
    ((List.replicate 5 Ev.tick).foldl step (step (initState 0) Ev.startScan)).scanning = false ∧
    ((List.replicate 5 Ev.tick).foldl step (step (initState 0) Ev.startScan)).devices = [] := by
  obtain ⟨h1, h2, _⟩ := C9_scan_timeout (initState 0) 5 (by omega)
  exact ⟨h1, h2⟩

/-! Section: history-store invariant -/

/-- The history-store invariant: exactly four channels, every channel bounded
by `MAX_HISTORY`, and all channels of equal length. -/
def HistInv (s : AppState) : Prop :=
  s.histories.length = 4 ∧
  (∀ h ∈ s.histories, h.length ≤ MAX_HISTORY) ∧
  ∀ h₁ ∈ s.histories, ∀ h₂ ∈ s.histories, h₁.length = h₂.length

lemma histInv_of_eq (s t : AppState) (h : HistInv s) (he : t.histories = s.histories) :
    HistInv t := by
  unfold HistInv at *
  rw [he]
  exact h

lemma histInv_empty4 (t : AppState) (he : t.histories = [[], [], [], []]) : HistInv t := by
  unfold HistInv
  rw [he]
  exact ⟨rfl, by decide, by decide⟩

lemma histories_shape (l : List (List Nat)) (h : l.length = 4) :
    ∃ a b c d, l = [a, b, c, d] := by
  rcases l with _ | ⟨a, l⟩
  · simp only [List.length_nil] at h
    omega
  rcases l with _ | ⟨b, l⟩
  · simp only [List.length_cons, List.length_nil] at h
    omega
  rcases l with _ | ⟨c, l⟩
  · simp only [List.length_cons, List.length_nil] at h
    omega
  rcases l with _ | ⟨d, l⟩
  · simp only [List.length_cons, List.length_nil] at h
    omega
  rcases l with _ | ⟨e, l⟩
  · exact ⟨a, b, c, d, rfl⟩
  · simp only [List.length_cons] at h
    omega

lemma pushAll_four (a b c d : List Nat) (cs : List Nat) :
    pushAll [a, b, c, d] cs =
      [pushHist a (cs.getD 0 0), pushHist b (cs.getD 1 0),
       pushHist c (cs.getD 2 0), pushHist d (cs.getD 3 0)] := rfl

lemma pushHist_le (x : List Nat) (v : Nat) (hx : x.length ≤ MAX_HISTORY) :
    (pushHist x v).length ≤ MAX_HISTORY := by
  rw [length_pushHist]
  split <;> omega

lemma length_pushHist_eq (x y : List Nat) (v w : Nat) (hxy : x.length = y.length) :
    (pushHist x v).length = (pushHist y w).length := by
  rw [length_pushHist, length_pushHist, hxy]

lemma histInv_pushAll (s : AppState) (cs : List Nat) (h : HistInv s) (t : AppState)
    (ht : t.histories = pushAll s.histories cs) : HistInv t := by
  obtain ⟨h4, hb, he⟩ := h
  obtain ⟨a, b, c, d, hshape⟩ := histories_shape s.histories h4
  have ham : a ∈ s.histories := by rw [hshape]; simp
  have hbm : b ∈ s.histories := by rw [hshape]; simp
  have hcm : c ∈ s.histories := by rw [hshape]; simp
  have hdm : d ∈ s.histories := by rw [hshape]; simp
  unfold HistInv
  rw [ht, hshape, pushAll_four]
  refine ⟨rfl, ?_, ?_⟩
  · intro x hx
    simp only [List.mem_cons, List.not_mem_nil, or_false] at hx
    rcases hx with rfl | rfl | rfl | rfl
    · exact pushHist_le a _ (hb a ham)
    · exact pushHist_le b _ (hb b hbm)
    · exact pushHist_le c _ (hb c hcm)
    · exact pushHist_le d _ (hb d hdm)
  · intro x hx y hy
    simp only [List.mem_cons, List.not_mem_nil, or_false] at hx hy
    have hab := he a ham b hbm
    have hac := he a ham c hcm
    have had := he a ham d hdm
    rcases hx with rfl | rfl | rfl | rfl <;> rcases hy with rfl | rfl | rfl | rfl <;>
      exact length_pushHist_eq _ _ _ _ (by omega)

/-- Projection of the callback onto the histories field. -/
lemma onNotify_histories (s : AppState) (raw : List Nat) (hlen : 18 ≤ raw.length) :
    (onNotify (some raw) s).histories =
      if s.monPaused then s.histories else pushAll s.histories (decodeChans raw) := by
  rw [onNotify_decodes s raw hlen]

/-- Every event preserves the history-store invariant. -/
lemma histInv_step (s : AppState) (e : Ev) (h : HistInv s) : HistInv (step s e) := by
  cases e with
  | startScan => exact histInv_of_eq s _ h rfl
  | deviceFound id name =>
      cases name with
      | none => exact histInv_of_eq s _ h rfl
      | some nm => exact histInv_of_eq s _ h rfl
  | scanError => exact histInv_of_eq s _ h rfl
  | tick =>
      show HistInv (tick s)
      unfold tick
      cases s.scanTimer with
      | none => exact h
      | some n =>
          show HistInv (if n ≤ 1 then { s with scanning := false, scanTimer := none }
              else { s with scanTimer := some (n - 1) })
          by_cases hn : n ≤ 1
          · rw [if_pos hn]
            exact histInv_of_eq s _ h rfl
          · rw [if_neg hn]
            exact histInv_of_eq s _ h rfl
  | connect now => exact histInv_empty4 _ rfl
  | togglePause => exact histInv_of_eq s _ h rfl
  | clearData now => exact histInv_empty4 _ rfl
  | disconnect =>
      show HistInv (disconnectDevice s)
      unfold disconnectDevice
      by_cases hc : s.connected = true
      · rw [if_pos hc]
        exact histInv_empty4 _ rfl
      · rw [if_neg hc]
        exact h
  | notify p =>
      cases p with
      | none => exact h
      | some raw =>
          by_cases hlen : 18 ≤ raw.length
          · by_cases hp : s.monPaused = true
            · refine histInv_of_eq s _ h ?_
              show (onNotify (some raw) s).histories = s.histories
              rw [onNotify_histories s raw hlen, hp]
              rfl
            · refine histInv_pushAll s (decodeChans raw) h _ ?_
              show (onNotify (some raw) s).histories = _
              rw [onNotify_histories s raw hlen]
              simp only [Bool.not_eq_true] at hp
              rw [hp]
              rfl
          · have : step s (Ev.notify (some raw)) = s :=
              onNotify_short s (some raw) (Or.inr ⟨raw, rfl, by omega⟩)
            rw [this]
            exact h

/-- C10: at every state reachable from the initial one by any event sequence,
the history store consists of exactly 4 channels, all of equal length, each
of length at most `MAX_HISTORY` — every operation updates all four in
lockstep. -/
theorem C10_history_invariant (t0 : ℚ) (evs : List Ev) :
    HistInv (evs.foldl step (initState t0)) := by
  have aux : ∀ (l : List Ev) (s : AppState), HistInv s → HistInv (l.foldl step s) := by
    intro l
    induction l with
    | nil => exact fun s hs => hs
    | cons e l ih =>
        intro s hs
        rw [List.foldl_cons]
        exact ih (step s e) (histInv_step s e hs)
  exact aux evs (initState t0) (histInv_empty4 _ rfl)

/-! Section: pause and resume -/

lemma getLastD_ne_nil {α : Type} (l : List α) (d d' : α) (h : l ≠ []) :
    l.getLastD d = l.getLastD d' := by
  cases l with
  | nil => exact absurd rfl h
  | cons x xs => rw [List.getLastD_cons, List.getLastD_cons]

lemma getLastD_append_right {α : Type} (l₁ l₂ : List α) (d : α) (h : l₂ ≠ []) :
    (l₁ ++ l₂).getLastD d = l₂.getLastD d := by
  induction l₁ generalizing d with
  | nil => rfl
  | cons x xs ih =>
      rw [List.cons_append, List.getLastD_cons, ih x]
      exact getLastD_ne_nil l₂ x d h

lemma applyFrames_nil (s : AppState) : applyFrames [] s = s := rfl

lemma applyFrames_cons (raw : List Nat) (ps : List (List Nat)) (s : AppState) :
    applyFrames (raw :: ps) s = applyFrames ps (onNotify (some raw) s) := rfl

/-- After a nonempty burst of valid frames the latest channel values come
from the last frame, whatever the pause state. -/
lemma applyFrames_channels (ps : List (List Nat)) : ∀ (s : AppState), ps ≠ [] →
    (∀ raw ∈ ps, 18 ≤ raw.length) →
    (applyFrames ps s).channels = decodeChans (ps.getLastD []) := by
  induction ps with
  | nil => exact fun s hne _ => absurd rfl hne
  | cons raw ps ih =>
      intro s _ hv
      rw [applyFrames_cons]
      by_cases hps : ps = []
      · subst hps
        rw [applyFrames_nil, onNotify_decodes s raw (hv raw (List.mem_cons_self _ _))]
        rfl
      · rw [ih _ hps (fun r hr => hv r (List.mem_cons_of_mem _ hr)),
            List.getLastD_cons, getLastD_ne_nil ps [] raw hps]

/-- The monitor callback never reads the live `paused` cell, so a
notification commutes with the pause toggle. -/
lemma onNotify_togglePause (p : Option (List Nat)) (s : AppState) :
    onNotify p (togglePause s) = togglePause (onNotify p s) := by
  cases p with
  | none => rfl
  | some raw =>
      by_cases hlen : 18 ≤ raw.length
      · rw [onNotify_decodes (togglePause s) raw hlen, onNotify_decodes s raw hlen]
        rfl
      · rw [onNotify_short (togglePause s) (some raw) (Or.inr ⟨raw, rfl, by omega⟩),
            onNotify_short s (some raw) (Or.inr ⟨raw, rfl, by omega⟩)]

/-- A whole burst of notifications commutes with the pause toggle. -/
lemma applyFrames_togglePause (ps : List (List Nat)) : ∀ (s : AppState),
    applyFrames ps (togglePause s) = togglePause (applyFrames ps s) := by
  induction ps with
  | nil => exact fun s => rfl
  | cons raw ps ih =>
      intro s
      rw [applyFrames_cons, applyFrames_cons, onNotify_togglePause, ih]

lemma applyFrames_append (ps qs : List (List Nat)) (s : AppState) :
    applyFrames (ps ++ qs) s = applyFrames qs (applyFrames ps s) :=
  List.foldl_append _ _ _ _

lemma length_pushHist_min (x : List Nat) (v : Nat) (hx : x.length ≤ MAX_HISTORY) :
    (pushHist x v).length = min (x.length + 1) MAX_HISTORY := by
  have hM : MAX_HISTORY = 100 := rfl
  rw [length_pushHist]
  split <;> omega

/-- In a session whose subscription captured `paused = false`, a burst of
valid frames grows each of the four histories to `min (L + M) MAX_HISTORY`. -/
lemma applyFrames_histories_len (qs : List (List Nat)) :
    ∀ (s : AppState) (a b c d : List Nat), s.monPaused = false →
    s.histories = [a, b, c, d] →
    a.length ≤ MAX_HISTORY → b.length ≤ MAX_HISTORY → c.length ≤ MAX_HISTORY →
    d.length ≤ MAX_HISTORY →
    (∀ raw ∈ qs, 18 ≤ raw.length) →
    (applyFrames qs s).histories.map List.length =
      [min (a.length + qs.length) MAX_HISTORY, min (b.length + qs.length) MAX_HISTORY,
       min (c.length + qs.length) MAX_HISTORY, min (d.length + qs.length) MAX_HISTORY] := by
  have hM : MAX_HISTORY = 100 := rfl
  induction qs with
  | nil =>
      intro s a b c d _ hs ha hb hc hd _
      rw [applyFrames_nil, hs]
      simp only [List.map_cons, List.map_nil, List.length_nil, List.cons.injEq, and_true]
      refine ⟨by omega, by omega, by omega, by omega⟩
  | cons raw qs ih =>
      intro s a b c d hp hs ha hb hc hd hv
      rw [applyFrames_cons]
      have hlen := hv raw (List.mem_cons_self _ _)
      have hnot : (onNotify (some raw) s).histories =
          [pushHist a ((decodeChans raw).getD 0 0), pushHist b ((decodeChans raw).getD 1 0),
           pushHist c ((decodeChans raw).getD 2 0), pushHist d ((decodeChans raw).getD 3 0)] := by
        rw [onNotify_histories s raw hlen, hp]
        show pushAll s.histories (decodeChans raw) = _
        rw [hs, pushAll_four]
      have hpp : (onNotify (some raw) s).monPaused = false := by
        rw [onNotify_decodes s raw hlen]
        exact hp
      have hrec := ih (onNotify (some raw) s)
        (pushHist a ((decodeChans raw).getD 0 0)) (pushHist b ((decodeChans raw).getD 1 0))
        (pushHist c ((decodeChans raw).getD 2 0)) (pushHist d ((decodeChans raw).getD 3 0))
        hpp hnot (pushHist_le a _ ha) (pushHist_le b _ hb) (pushHist_le c _ hc)
        (pushHist_le d _ hd) (fun r hr => hv r (List.mem_cons_of_mem _ hr))
      rw [hrec, List.length_cons,
          length_pushHist_min a _ ha, length_pushHist_min b _ hb,
          length_pushHist_min c _ hc, length_pushHist_min d _ hd]
      simp only [List.cons.injEq, and_true]
      refine ⟨by omega, by omega, by omega, by omega⟩

/-- C2 counterexample, both failure modes of the claim.  First, the cap: in
an Active session whose histories are already full (after 100 recorded
frames), pause / K = 1 frame / resume / M = 1 frame leaves the first channel
history at length 100, an increase of 0, not of M = 1.  Second, the stale
closure: in a fresh Active session (histories of length 0, subscription
captured `paused = false`), the same pause / 1 frame / resume / 1 frame run
ends at length 2, not 0 + 1 — the frame delivered while paused is recorded
too, because the callback reads the captured pause value, not the live one. -/
theorem C2_counterexample :
    (applyFrames (List.replicate 100 P4) (connectAndMonitor 0 (initState 0))).connected
        = true ∧
    (applyFrames (List.replicate 100 P4) (connectAndMonitor 0 (initState 0))).paused
        = false ∧
    ((applyFrames (List.replicate 100 P4)
        (connectAndMonitor 0 (initState 0))).histories.getD 0 []).length = 100 ∧
    ¬ (((applyFrames [P4] (togglePause (applyFrames [P4] (togglePause
          (applyFrames (List.replicate 100 P4)
            (connectAndMonitor 0 (initState 0))))))).histories.getD 0 []).length
        = ((applyFrames (List.replicate 100 P4)
            (connectAndMonitor 0 (initState 0))).histories.getD 0 []).length + 1) ∧
    ((connectAndMonitor 0 (initState 0)).histories.getD 0 []).length = 0 ∧
    ¬ (((applyFrames [P4] (togglePause (applyFrames [P4] (togglePause
          (connectAndMonitor 0 (initState 0)))))).histories.getD 0 []).length
        = ((connectAndMonitor 0 (initState 0)).histories.getD 0 []).length + 1) := by
  set_option maxRecDepth 100000 in decide

/-- C2 (amended): from an Active session whose monitor subscription captured
`paused = false`, after toggling pause, applying K valid frames, toggling
pause again, and applying M valid frames, each channel history of starting
length L ends at length `min (L + (K + M)) MAX_HISTORY`: all K + M frames
are recorded, the K nominally paused ones included, because the callback
closure reads the pause value captured at subscription, not the live one;
the latest channel values come from the last of all K + M frames. -/
theorem C2_pause_resume (s : AppState) (a b c d : List Nat)
    (ps qs : List (List Nat))
    (hm : s.monPaused = false)
    (hs : s.histories = [a, b, c, d])
    (ha : a.length ≤ MAX_HISTORY) (hb : b.length ≤ MAX_HISTORY)
    (hc : c.length ≤ MAX_HISTORY) (hd : d.length ≤ MAX_HISTORY)
    (hpv : ∀ raw ∈ ps, 18 ≤ raw.length) (hqv : ∀ raw ∈ qs, 18 ≤ raw.length) :
    (applyFrames qs (togglePause (applyFrames ps (togglePause s)))).histories.map List.length
      = [min (a.length + (ps.length + qs.length)) MAX_HISTORY,
         min (b.length + (ps.length + qs.length)) MAX_HISTORY,
         min (c.length + (ps.length + qs.length)) MAX_HISTORY,
         min (d.length + (ps.length + qs.length)) MAX_HISTORY] ∧
    (ps ++ qs ≠ [] →
      (applyFrames qs (togglePause (applyFrames ps (togglePause s)))).channels
        = decodeChans ((ps ++ qs).getLastD [])) := by
  have hv : ∀ raw ∈ ps ++ qs, 18 ≤ raw.length := by
    intro r hr
    rcases List.mem_append.mp hr with h | h
    · exact hpv r h
    · exact hqv r h
  have hterm : applyFrames qs (togglePause (applyFrames ps (togglePause s)))
      = togglePause (togglePause (applyFrames (ps ++ qs) s)) := by
    rw [applyFrames_append]
    simp only [applyFrames_togglePause]
  have hhist : (applyFrames qs (togglePause (applyFrames ps (togglePause s)))).histories
      = (applyFrames (ps ++ qs) s).histories := by
    rw [hterm]
    rfl
  have hchan : (applyFrames qs (togglePause (applyFrames ps (togglePause s)))).channels
      = (applyFrames (ps ++ qs) s).channels := by
    rw [hterm]
    rfl
  constructor
  · rw [hhist, applyFrames_histories_len (ps ++ qs) s a b c d hm hs ha hb hc hd hv,
        List.length_append]
  · intro hne
    rw [hchan]
    exact applyFrames_channels (ps ++ qs) s hne hv

/-- Witness for C2: fresh session, K = 1 frame during pause, M = 2 frames
after resume; all three are recorded. -/
theorem C2_pause_resume_witness :
    (applyFrames [P4, P4] (togglePause (applyFrames [P4] (togglePause
        (connectAndMonitor 0 (initState 0)))))).histories.map List.length
      = [3, 3, 3, 3] ∧
    (applyFrames [P4, P4] (togglePause (applyFrames [P4] (togglePause
        (connectAndMonitor 0 (initState 0)))))).channels
      = decodeChans P4 := by
  obtain ⟨h1, h2⟩ := C2_pause_resume (connectAndMonitor 0 (initState 0)) [] [] [] []
    [P4] [P4, P4] rfl rfl (by decide) (by decide) (by decide) (by decide)
    (by decide) (by decide)
  constructor
  · rw [h1]
    rfl
  · rw [h2 (by decide)]
    rfl

end EEGApp
